import Mathlib

/-!
Shallow embedding of `src/util/pointer.h` (Luanti): the exclusively owned
`Buffer<T>`, the reference-counted `SharedBuffer<T>`, and
`IntrusiveReferenceCounted`.

Machine integers: `SharedBuffer::m_size` and `*refcount` are C++
`unsigned int` (32 bits); their arithmetic is modelled on `Nat` with an
explicit `% U32MOD`, so a `size_t` argument stored into `m_size` is
truncated and the counter increment/decrement wraps, exactly as in the
source.  `Buffer::m_size` and all `size_t` parameters undergo no
arithmetic, so they are plain `Nat`.

The heap is explicit: an address-indexed store of arrays (`new T[]`) and of
counter cells (`new u32`), with `none` marking a freed or never-allocated
cell.  Array and counter cells have different C++ types so they can never
alias; they get separate address spaces here.  Element values are `Nat`
(the source is generic in the element type `T`; nothing in the verified
operations depends on element values).
-/

def U32MOD : Nat := 4294967296

structure Heap where
  arrays : Nat → Option (List Nat)
  counters : Nat → Option Nat
  nextA : Nat
  nextC : Nat

def Heap.empty : Heap := ⟨fun _ => none, fun _ => none, 0, 0⟩

/-- `new T[...]` with the given contents; returns the heap and the address. -/
def Heap.allocArray (h : Heap) (xs : List Nat) : Heap × Nat :=
  (⟨fun a => if a = h.nextA then some xs else h.arrays a, h.counters, h.nextA + 1, h.nextC⟩,
   h.nextA)

/-- `new u32` initialized to `v`; returns the heap and the address. -/
def Heap.allocCounter (h : Heap) (v : Nat) : Heap × Nat :=
  (⟨h.arrays, fun c => if c = h.nextC then some v else h.counters c, h.nextA, h.nextC + 1⟩,
   h.nextC)

/-- Store `v` into the counter cell at address `c`. -/
def Heap.setCounter (h : Heap) (c v : Nat) : Heap :=
  ⟨h.arrays, fun x => if x = c then some v else h.counters x, h.nextA, h.nextC⟩

/-- `delete[]` of the array at address `a`. -/
def Heap.freeArray (h : Heap) (a : Nat) : Heap :=
  ⟨fun x => if x = a then none else h.arrays x, h.counters, h.nextA, h.nextC⟩

/-- `delete` of the counter cell at address `c`. -/
def Heap.freeCounter (h : Heap) (c : Nat) : Heap :=
  ⟨h.arrays, fun x => if x = c then none else h.counters x, h.nextA, h.nextC⟩

/-- `Buffer<T>` (pointer.h:13-130): `T *data; size_t m_size;`.
`data = none` models a null pointer, `some a` a pointer to the array at
heap address `a`. -/
structure Buffer where
  data : Option Nat
  m_size : Nat
deriving DecidableEq

/-- The array a `Buffer` points at (empty list when `data` is null or the
array was freed). -/
def Buffer.contentsIn (b : Buffer) (h : Heap) : List Nat :=
  match b.data with
  | none => []
  | some a => (h.arrays a).getD []

/-- `Buffer(const T *t, size_t size)` (pointer.h:48-57): copies `size`
elements from `t`.  `xs` is the memory behind `t`; a call is in bounds
exactly when `size ≤ xs.length` (the source `memcpy` reads `size`
elements unconditionally). -/
def Buffer.ofSpan (xs : List Nat) (size : Nat) (h : Heap) : Buffer × Heap :=
  if size ≠ 0 then
    let pa := h.allocArray (xs.take size)
    (⟨some pa.2, size⟩, pa.1)
  else
    (⟨none, size⟩, h)

/-- `~Buffer()` / private `drop()` (pointer.h:59-62,124-127):
`delete[] data`, a no-op on a null pointer. -/
def Buffer.dropB (b : Buffer) (h : Heap) : Heap :=
  match b.data with
  | none => h
  | some a => h.freeArray a

/-- `Buffer(Buffer &&buffer)` (pointer.h:36-46).  Returns
(constructed object, source afterwards).  `m_size = buffer.m_size`; if
non-zero the data pointer is stolen and the source nulled, otherwise the
new data pointer is null and the source is not written. -/
def Buffer.moveCtor (b : Buffer) : Buffer × Buffer :=
  if b.m_size ≠ 0 then (⟨b.data, b.m_size⟩, ⟨none, 0⟩)
  else (⟨none, b.m_size⟩, b)

/-- `Buffer &operator=(Buffer &&buffer)` (pointer.h:64-78); `same` is the
`this == &buffer` test.  Returns (assigned-to object, source afterwards,
heap).  On the non-self path the old array is dropped first. -/
def Buffer.moveAssign (same : Bool) (lhs src : Buffer) (h : Heap) :
    Buffer × Buffer × Heap :=
  if same then (lhs, src, h)
  else
    let h1 := lhs.dropB h
    if src.m_size ≠ 0 then (⟨src.data, src.m_size⟩, ⟨none, 0⟩, h1)
    else (⟨none, src.m_size⟩, src, h1)

/-- `Buffer::shrinkSize(size_t new_size)` (pointer.h:114-121).  The `Bool`
records whether the `assert(new_size <= m_size)` condition held; the guarded
assignment runs regardless (the non-fatal, assertions-disabled path). -/
def Buffer.shrinkSize (b : Buffer) (new_size : Nat) : Buffer × Bool :=
  (if new_size ≤ b.m_size then ⟨b.data, new_size⟩ else b,
   decide (new_size ≤ b.m_size))

/-- `SharedBuffer<T>` (pointer.h:139-270):
`T *data = nullptr; unsigned int m_size = 0; unsigned int *refcount = nullptr;`
(the default member initializers at pointer.h:267-269).
`refcount = some c` points at the counter cell at heap address `c`. -/
structure SharedBuffer where
  data : Option Nat
  m_size : Nat
  refcount : Option Nat
deriving DecidableEq

/-- `SharedBuffer()` (pointer.h:143-148): the empty sentinel
(`m_size = 0; data = nullptr; refcount = 0;`), which is also the state the
default member initializers leave a `SharedBuffer` in at the start of any
constructor body that has not yet assigned the members. -/
def SharedBuffer.sentinel : SharedBuffer := ⟨none, 0, none⟩

/-- The array a `SharedBuffer` points at. -/
def SharedBuffer.contentsIn (b : SharedBuffer) (h : Heap) : List Nat :=
  match b.data with
  | none => []
  | some a => (h.arrays a).getD []

/-- `SharedBuffer(size_t size)` (pointer.h:150-159).  `m_size` is a 32-bit
`unsigned int`, so `m_size = size` truncates: `m_size = size % 2^32`; the
branch tests the truncated `m_size`.  On the non-zero branch:
`data = new T[m_size]`, `refcount = new u32`, `memset(data, 0, ...m_size)`,
`*refcount = 1`.  On the zero branch `data` and `refcount` keep their
default (null) initializers: the empty sentinel. -/
def SharedBuffer.create (size : Nat) (h : Heap) : SharedBuffer × Heap :=
  let msize := size % U32MOD
  if msize ≠ 0 then
    let pa := h.allocArray (List.replicate msize 0)
    let pc := pa.1.allocCounter 1
    (⟨some pa.2, msize, some pc.2⟩, pc.1)
  else
    (SharedBuffer.sentinel, h)

/-- `SharedBuffer(const T *t, size_t size)` (pointer.h:198-210).
`m_size = size % 2^32` by the same truncation.  When `0 < m_size < size`
the `memcpy` of `size` elements overflows the fresh `new T[m_size]`
allocation (undefined behaviour in the source); the model stores the
in-bounds prefix `xs.take m_size`, and every theorem below stays away from
that regime. -/
def SharedBuffer.ofSpan (xs : List Nat) (size : Nat) (h : Heap) : SharedBuffer × Heap :=
  let msize := size % U32MOD
  if msize ≠ 0 then
    let pa := h.allocArray (xs.take msize)
    let pc := pa.1.allocCounter 1
    (⟨some pa.2, msize, some pc.2⟩, pc.1)
  else
    (SharedBuffer.sentinel, h)

/-- `SharedBuffer(const Buffer<T> &buffer)` (pointer.h:212-215): delegates
to the span constructor with `(*buffer, buffer.getSize())`. -/
def SharedBuffer.ofBuffer (b : Buffer) (h : Heap) : SharedBuffer × Heap :=
  SharedBuffer.ofSpan (b.contentsIn h) b.m_size h

/-- `operator Buffer<T>()` (pointer.h:247-250): `Buffer<T>(data, m_size)`,
a fresh copying allocation. -/
def SharedBuffer.toBuffer (b : SharedBuffer) (h : Heap) : Buffer × Heap :=
  Buffer.ofSpan (b.contentsIn h) b.m_size h

/-- `SharedBuffer(const SharedBuffer &buffer)` (pointer.h:161-170).
Returns (constructed object, heap, assert-ok).  The body's
`assert(refcount || (!m_size && !data))` reads the members of the object
under construction, which the default member initializers
(pointer.h:267-269) have just set to the sentinel values, so the recorded
condition is evaluated on `SharedBuffer.sentinel`, not on `buffer`.
Then the three members are copied from `buffer` and, when the copied
`refcount` is non-null, `(*refcount)++` (u32, wraps) — the
`if (refcount) (*refcount)++;` step is `bumpCounter`, shared with the copy
assignment operator; incrementing a freed cell is undefined behaviour and
is modelled as a no-op (never reached from valid states). -/
def bumpCounter (h : Heap) (r : Option Nat) : Heap :=
  match r with
  | none => h
  | some c =>
    match h.counters c with
    | none => h
    | some v => h.setCounter c ((v + 1) % U32MOD)

def SharedBuffer.copyCtor (src : SharedBuffer) (h : Heap) : SharedBuffer × Heap × Bool :=
  let constructed : SharedBuffer := SharedBuffer.sentinel
  let assertOk : Bool :=
    constructed.refcount.isSome || (constructed.m_size == 0 && constructed.data.isNone)
  (⟨src.data, src.m_size, src.refcount⟩, bumpCounter h src.refcount, assertOk)

/-- `SharedBuffer(SharedBuffer &&buffer)` (pointer.h:171-180).  Returns
(constructed object, source afterwards); the source becomes the sentinel
and no counter is touched. -/
def SharedBuffer.moveCtor (src : SharedBuffer) : SharedBuffer × SharedBuffer :=
  (⟨src.data, src.m_size, src.refcount⟩, SharedBuffer.sentinel)

/-- Private `drop()` (pointer.h:253-265).  Returns (heap, assert-ok for
`assert((*refcount) > 0)`).  The u32 decrement wraps: `(*refcount)--` with
`*refcount = 0` yields `2^32 - 1` on the assertions-disabled path.  When
the decremented counter is zero, `delete[] data` (no-op on null) and
`delete refcount`.  `(h, false)` on a freed counter cell marks a read of
freed memory (undefined behaviour, never reached from valid states). -/
def SharedBuffer.dropOp (b : SharedBuffer) (h : Heap) : Heap × Bool :=
  match b.refcount with
  | none => (h, true)
  | some c =>
    match h.counters c with
    | none => (h, false)
    | some v =>
      let v2 := (v + (U32MOD - 1)) % U32MOD
      if v2 = 0 then
        ((match b.data with
          | none => h
          | some a => h.freeArray a).freeCounter c, decide (0 < v))
      else
        (h.setCounter c v2, decide (0 < v))

/-- `SharedBuffer &operator=(const SharedBuffer &buffer)` (pointer.h:182-195);
`same` is the `this == &buffer` test.  Returns (assigned-to object, heap,
assert-ok of the inner `drop()`).  On the non-self path: `drop()`, copy the
three members, and `(*refcount)++` when the new `refcount` is non-null.
The operand is a const reference: the source object is never modified. -/
def SharedBuffer.copyAssign (same : Bool) (lhs src : SharedBuffer) (h : Heap) :
    SharedBuffer × Heap × Bool :=
  if same then (lhs, h, true)
  else
    let pd := lhs.dropOp h
    (⟨src.data, src.m_size, src.refcount⟩, bumpCounter pd.1 src.refcount, pd.2)

/-- What assigning from an rvalue `SharedBuffer` executes.  The class
declares a move constructor but no move-assignment operator; C++ overload
resolution for `x = std::move(y)` therefore selects
`operator=(const SharedBuffer &)` (an rvalue binds to a const lvalue
reference), i.e. copy assignment. -/
def SharedBuffer.moveAssignRValue (lhs src : SharedBuffer) (h : Heap) :
    SharedBuffer × Heap × Bool :=
  SharedBuffer.copyAssign false lhs src h

/-- `SharedBuffer::shrinkSize(size_t new_size)` (pointer.h:238-245).  The
comparison promotes `m_size` to `size_t` (exact); the guarded assignment
stores into the 32-bit `m_size` (mod `2^32`, an identity here because
`new_size ≤ m_size < 2^32` for every object the code can build). -/
def SharedBuffer.shrinkSize (b : SharedBuffer) (new_size : Nat) : SharedBuffer × Bool :=
  (if new_size ≤ b.m_size then ⟨b.data, new_size % U32MOD, b.refcount⟩ else b,
   decide (new_size ≤ b.m_size))

/-- Number of live `SharedBuffer` instances in `l` holding the counter cell
at address `c`. -/
def holders (l : List SharedBuffer) (c : Nat) : Nat :=
  l.countP fun b => decide (b.refcount = some c)

/-- Single-threaded executions of the `SharedBuffer` API, as a reachability
relation on (heap, multiset of live instances — a `List` read up to
permutation).  Every public operation of the class that touches shared
state appears.  The `span` step is restricted to in-bounds calls with
`size = xs.length < 2^32` (larger sizes overflow the fresh allocation in
the source: undefined behaviour). -/
inductive Reachable : Heap → List SharedBuffer → Prop where
  | init : Reachable Heap.empty []
  | dflt {h l} : Reachable h l → Reachable h (SharedBuffer.sentinel :: l)
  | create {h l} (n : Nat) : Reachable h l →
      Reachable (SharedBuffer.create n h).2 ((SharedBuffer.create n h).1 :: l)
  | span {h l} (xs : List Nat) : xs.length < U32MOD → Reachable h l →
      Reachable (SharedBuffer.ofSpan xs xs.length h).2
        ((SharedBuffer.ofSpan xs xs.length h).1 :: l)
  | copy {h l b} : Reachable h l → b ∈ l →
      Reachable (SharedBuffer.copyCtor b h).2.1 ((SharedBuffer.copyCtor b h).1 :: l)
  | move {h l b} : Reachable h l → b ∈ l →
      Reachable h ((SharedBuffer.moveCtor b).1 :: SharedBuffer.sentinel :: l.erase b)
  | assign {h l b src} : Reachable h l → b ∈ l → src ∈ l.erase b →
      Reachable (SharedBuffer.copyAssign false b src h).2.1
        ((SharedBuffer.copyAssign false b src h).1 :: l.erase b)
  | selfAssign {h l b} : Reachable h l → b ∈ l →
      Reachable (SharedBuffer.copyAssign true b b h).2.1
        ((SharedBuffer.copyAssign true b b h).1 :: l.erase b)
  | shrinkStep {h l b} (n : Nat) : Reachable h l → b ∈ l →
      Reachable h ((SharedBuffer.shrinkSize b n).1 :: l.erase b)
  | destroy {h l b} : Reachable h l → b ∈ l →
      Reachable (SharedBuffer.dropOp b h).1 (l.erase b)

/-- `Reachable` restricted to executions in which no allocation ever
accumulates `2^32` simultaneous holders, so the 32-bit reference counter
never wraps: the two counter-incrementing steps carry that bound as a
guard.  (The unrestricted `Reachable` does reach counter wrap-around; see
the counterexample for claim C4.) -/
inductive ReachableB : Heap → List SharedBuffer → Prop where
  | init : ReachableB Heap.empty []
  | dflt {h l} : ReachableB h l → ReachableB h (SharedBuffer.sentinel :: l)
  | create {h l} (n : Nat) : ReachableB h l →
      ReachableB (SharedBuffer.create n h).2 ((SharedBuffer.create n h).1 :: l)
  | span {h l} (xs : List Nat) : xs.length < U32MOD → ReachableB h l →
      ReachableB (SharedBuffer.ofSpan xs xs.length h).2
        ((SharedBuffer.ofSpan xs xs.length h).1 :: l)
  | copy {h l b} : ReachableB h l → b ∈ l →
      (∀ c, b.refcount = some c → holders l c + 1 < U32MOD) →
      ReachableB (SharedBuffer.copyCtor b h).2.1 ((SharedBuffer.copyCtor b h).1 :: l)
  | move {h l b} : ReachableB h l → b ∈ l →
      ReachableB h ((SharedBuffer.moveCtor b).1 :: SharedBuffer.sentinel :: l.erase b)
  | assign {h l b src} : ReachableB h l → b ∈ l → src ∈ l.erase b →
      (∀ c, src.refcount = some c → holders l c + 1 < U32MOD) →
      ReachableB (SharedBuffer.copyAssign false b src h).2.1
        ((SharedBuffer.copyAssign false b src h).1 :: l.erase b)
  | selfAssign {h l b} : ReachableB h l → b ∈ l →
      ReachableB (SharedBuffer.copyAssign true b b h).2.1
        ((SharedBuffer.copyAssign true b b h).1 :: l.erase b)
  | shrinkStep {h l b} (n : Nat) : ReachableB h l → b ∈ l →
      ReachableB h ((SharedBuffer.shrinkSize b n).1 :: l.erase b)
  | destroy {h l b} : ReachableB h l → b ∈ l →
      ReachableB (SharedBuffer.dropOp b h).1 (l.erase b)

/-- The `SharedBuffer` state invariant: every held counter cell is live and
counts exactly the live holders of its allocation; holder counts fit in the
u32 counter; non-empty instances hold a counter; instances of one family
share one live array; distinct families have distinct arrays; addresses at
or beyond the allocation frontier are unallocated. -/
structure RefInv (h : Heap) (l : List SharedBuffer) : Prop where
  counterEq : ∀ b ∈ l, ∀ c, b.refcount = some c → h.counters c = some (holders l c)
  holdersLt : ∀ c, holders l c < U32MOD
  dataLive : ∀ b ∈ l, b.refcount.isSome → ∃ a, b.data = some a ∧ (h.arrays a).isSome
  refOfSize : ∀ b ∈ l, b.m_size ≠ 0 → b.refcount.isSome
  dataOfRef : ∀ b ∈ l, b.refcount = none → b.data = none
  dataFam : ∀ b ∈ l, ∀ b' ∈ l, ∀ a, b.data = some a → b'.data = some a →
    b.refcount = b'.refcount
  arraysBound : ∀ a, h.nextA ≤ a → h.arrays a = none
  countersBound : ∀ c, h.nextC ≤ c → h.counters c = none

/-- `IntrusiveReferenceCounted` (pointer.h:273-283) as a state:
`live rc` is an allocated object with `m_refcount = rc` (u32), `deleted`
the state right after `delete this`, and `corrupt` the result of touching a
deleted object (use-after-free). -/
inductive IRCState where
  | live (rc : Nat) : IRCState
  | deleted : IRCState
  | corrupt : IRCState
deriving DecidableEq

/-- Construction: `u32 m_refcount = 1`. -/
def IRCState.init : IRCState := .live 1

/-- `void grab() noexcept { ++m_refcount; }` (u32, wraps). -/
def IRCState.grab : IRCState → IRCState
  | .live rc => .live ((rc + 1) % U32MOD)
  | _ => .corrupt

/-- `void drop() noexcept { if (--m_refcount == 0) delete this; }`
(u32 pre-decrement, wraps). -/
def IRCState.drop : IRCState → IRCState
  | .live rc =>
    let r := (rc + (U32MOD - 1)) % U32MOD
    if r = 0 then .deleted else .live r
  | _ => .corrupt

/-- The single instance produced by `SharedBuffer(1)` on the empty heap:
array at address 0, counter cell at address 0. -/
def sbOne : SharedBuffer := (SharedBuffer.create 1 Heap.empty).1

/-- The execution that creates one `SharedBuffer(1)` and then
copy-constructs `n` further aliases of it: after `n` copies there are
`n + 1` live holders of counter cell 0. -/
def copyN : Nat → Heap × List SharedBuffer
  | 0 => ((SharedBuffer.create 1 Heap.empty).2, [(SharedBuffer.create 1 Heap.empty).1])
  | n + 1 =>
    ((SharedBuffer.copyCtor sbOne (copyN n).1).2.1,
     (SharedBuffer.copyCtor sbOne (copyN n).1).1 :: (copyN n).2)

/-- A `SharedBuffer` value violating the class invariant (non-empty, no
counter): the corrupted-state input the defensive assert of claim C5 is
supposed to catch. -/
def corruptSB : SharedBuffer := ⟨some 0, 5, none⟩

/-- Concrete two-array heap for witnesses: `[7]` at address 0, `[9]` at
address 1. -/
def hW : Heap :=
  ⟨fun a => if a = 0 then some [7] else if a = 1 then some [9] else none,
   fun _ => none, 2, 0⟩

def bW : Buffer := ⟨some 0, 1⟩

def dW : Buffer := ⟨some 1, 1⟩

/-- A well-formed `Buffer` of `2^32` elements (array at address 0), the
input on which the size-truncating conversions lose the contents. -/
def hBig : Heap :=
  ⟨fun a => if a = 0 then some (List.replicate 4294967296 0) else none,
   fun _ => none, 1, 0⟩

def bBig : Buffer := ⟨some 0, 4294967296⟩

theorem holders_cons (b : SharedBuffer) (l : List SharedBuffer) (c : Nat) :
    holders (b :: l) c = holders l c + (if b.refcount = some c then 1 else 0) := by
  simp only [holders, List.countP_cons, decide_eq_true_eq]

theorem holders_perm {l l' : List SharedBuffer} (hp : List.Perm l l') (c : Nat) :
    holders l c = holders l' c := hp.countP_eq _

theorem holders_erase_mem {b : SharedBuffer} {l : List SharedBuffer} (hb : b ∈ l) (c : Nat) :
    holders l c = holders (l.erase b) c + (if b.refcount = some c then 1 else 0) := by
  rw [holders_perm (List.perm_cons_erase hb) c, holders_cons]

theorem holders_eq_zero {l : List SharedBuffer} {c : Nat}
    (h : ∀ b ∈ l, b.refcount ≠ some c) : holders l c = 0 := by
  simp only [holders, List.countP_eq_zero, decide_eq_true_eq]
  exact h

theorem holders_pos {b : SharedBuffer} {l : List SharedBuffer} {c : Nat}
    (hb : b ∈ l) (hc : b.refcount = some c) : 0 < holders l c := by
  exact List.countP_pos_iff.2 ⟨b, hb, by simp [hc]⟩

theorem holders_erase_le {b : SharedBuffer} (l : List SharedBuffer) (c : Nat) :
    holders (l.erase b) c ≤ holders l c :=
  (List.erase_sublist b l).countP_le _

theorem mem_of_holders {l : List SharedBuffer} {c : Nat} (h : 0 < holders l c) :
    ∃ b ∈ l, b.refcount = some c := by
  obtain ⟨b, hb, hc⟩ := List.countP_pos_iff.1 h
  exact ⟨b, hb, by simpa using hc⟩

theorem RefInv.permList {h : Heap} {l l' : List SharedBuffer}
    (hp : List.Perm l l') (hi : RefInv h l) : RefInv h l' := by
  refine ⟨?_, ?_, ?_, ?_, ?_, ?_, hi.arraysBound, hi.countersBound⟩
  · intro b hb c hc
    rw [← holders_perm hp c]
    exact hi.counterEq b (hp.mem_iff.2 hb) c hc
  · intro c
    rw [← holders_perm hp c]
    exact hi.holdersLt c
  · intro b hb hc
    exact hi.dataLive b (hp.mem_iff.2 hb) hc
  · intro b hb hc
    exact hi.refOfSize b (hp.mem_iff.2 hb) hc
  · intro b hb hc
    exact hi.dataOfRef b (hp.mem_iff.2 hb) hc
  · intro b hb b' hb' a ha ha'
    exact hi.dataFam b (hp.mem_iff.2 hb) b' (hp.mem_iff.2 hb') a ha ha'

theorem RefInv.consSentinel {h : Heap} {l : List SharedBuffer}
    (hi : RefInv h l) : RefInv h (SharedBuffer.sentinel :: l) := by
  have hnone : SharedBuffer.sentinel.refcount = none := rfl
  have hdata : SharedBuffer.sentinel.data = none := rfl
  have hsize : SharedBuffer.sentinel.m_size = 0 := rfl
  have hh : ∀ c, holders (SharedBuffer.sentinel :: l) c = holders l c := by
    intro c
    rw [holders_cons]
    simp [hnone]
  refine ⟨?_, ?_, ?_, ?_, ?_, ?_, hi.arraysBound, hi.countersBound⟩
  · intro b hb c hc
    rw [hh]
    rcases List.mem_cons.1 hb with rfl | hb
    · rw [hnone] at hc; cases hc
    · exact hi.counterEq b hb c hc
  · intro c
    rw [hh]
    exact hi.holdersLt c
  · intro b hb hc
    rcases List.mem_cons.1 hb with rfl | hb
    · rw [hnone] at hc; cases hc
    · exact hi.dataLive b hb hc
  · intro b hb hc
    rcases List.mem_cons.1 hb with rfl | hb
    · rw [hsize] at hc; cases hc rfl
    · exact hi.refOfSize b hb hc
  · intro b hb hc
    rcases List.mem_cons.1 hb with rfl | hb
    · exact hdata
    · exact hi.dataOfRef b hb hc
  · intro b hb b' hb' a ha ha'
    rcases List.mem_cons.1 hb with rfl | hb
    · rw [hdata] at ha; cases ha
    · rcases List.mem_cons.1 hb' with rfl | hb'
      · rw [hdata] at ha'; cases ha'
      · exact hi.dataFam b hb b' hb' a ha ha'

theorem bumpCounter_none (h : Heap) : bumpCounter h none = h := rfl

theorem bumpCounter_some {h : Heap} {c v : Nat} (hv : h.counters c = some v) :
    bumpCounter h (some c) = h.setCounter c ((v + 1) % U32MOD) := by
  unfold bumpCounter
  dsimp only
  rw [hv]

theorem copyCtor_fst (src : SharedBuffer) (h : Heap) :
    (SharedBuffer.copyCtor src h).1 = src := rfl

theorem copyCtor_ok (src : SharedBuffer) (h : Heap) :
    (SharedBuffer.copyCtor src h).2.2 = true := rfl

theorem copyCtor_heap (src : SharedBuffer) (h : Heap) :
    (SharedBuffer.copyCtor src h).2.1 = bumpCounter h src.refcount := rfl

theorem RefInv.fresh {h : Heap} {l : List SharedBuffer} (hi : RefInv h l)
    (xs : List Nat) (n : Nat) :
    RefInv ((h.allocArray xs).1.allocCounter 1).1
      (⟨some h.nextA, n, some h.nextC⟩ :: l) := by
  have hA : ∀ a, (((h.allocArray xs).1.allocCounter 1).1).arrays a =
      if a = h.nextA then some xs else h.arrays a := fun _ => rfl
  have hC : ∀ c, (((h.allocArray xs).1.allocCounter 1).1).counters c =
      if c = h.nextC then some 1 else h.counters c := fun _ => rfl
  have hNA : (((h.allocArray xs).1.allocCounter 1).1).nextA = h.nextA + 1 := rfl
  have hNC : (((h.allocArray xs).1.allocCounter 1).1).nextC = h.nextC + 1 := rfl
  set b0 : SharedBuffer := ⟨some h.nextA, n, some h.nextC⟩ with hb0
  have hb0r : b0.refcount = some h.nextC := rfl
  have hb0d : b0.data = some h.nextA := rfl
  have oldNe : ∀ b ∈ l, ∀ c, b.refcount = some c → c ≠ h.nextC := by
    intro b hb c hc heq
    have hq := hi.counterEq b hb c hc
    rw [heq, hi.countersBound h.nextC (le_refl _)] at hq
    cases hq
  have newFamZero : holders l h.nextC = 0 :=
    holders_eq_zero (fun b hb hc => oldNe b hb h.nextC hc rfl)
  have oldArrNe : ∀ b ∈ l, ∀ a, b.data = some a → a ≠ h.nextA := by
    intro b hb a ha heq
    rcases hr : b.refcount with _ | c
    · have hq := hi.dataOfRef b hb hr
      rw [hq] at ha; cases ha
    · obtain ⟨a2, ha2, hlive⟩ := hi.dataLive b hb (by rw [hr]; rfl)
      rw [ha] at ha2
      cases ha2
      rw [heq, hi.arraysBound h.nextA (le_refl _)] at hlive
      cases hlive
  have hcons : ∀ c, holders (b0 :: l) c =
      holders l c + (if h.nextC = c then 1 else 0) := by
    intro c
    rw [holders_cons]
    by_cases hx : h.nextC = c
    · rw [if_pos hx, if_pos (show b0.refcount = some c by rw [hb0r, hx])]
    · rw [if_neg hx, if_neg (show ¬b0.refcount = some c by
        intro hq; rw [hb0r] at hq; injection hq with hq2; exact hx hq2)]
  refine ⟨?_, ?_, ?_, ?_, ?_, ?_, ?_, ?_⟩
  · intro b hb c hc
    rcases List.mem_cons.1 hb with rfl | hb
    · rw [hb0r] at hc
      injection hc with hc2
      subst hc2
      rw [hC, if_pos rfl, hcons, if_pos rfl, newFamZero]
    · have hne := oldNe b hb c hc
      rw [hC, if_neg hne, hcons, if_neg (fun hx => hne hx.symm), Nat.add_zero]
      exact hi.counterEq b hb c hc
  · intro c
    rw [hcons]
    by_cases hx : h.nextC = c
    · subst hx
      rw [if_pos rfl, newFamZero]
      norm_num [U32MOD]
    · rw [if_neg hx, Nat.add_zero]
      exact hi.holdersLt c
  · intro b hb hc
    rcases List.mem_cons.1 hb with rfl | hb
    · exact ⟨h.nextA, hb0d, by rw [hA, if_pos rfl]; rfl⟩
    · obtain ⟨a, ha, hlive⟩ := hi.dataLive b hb hc
      refine ⟨a, ha, ?_⟩
      rw [hA, if_neg (oldArrNe b hb a ha)]
      exact hlive
  · intro b hb hs2
    rcases List.mem_cons.1 hb with rfl | hb
    · rw [hb0r]; rfl
    · exact hi.refOfSize b hb hs2
  · intro b hb hc
    rcases List.mem_cons.1 hb with rfl | hb
    · rw [hb0r] at hc; cases hc
    · exact hi.dataOfRef b hb hc
  · intro b hb b' hb' a ha ha'
    rcases List.mem_cons.1 hb with rfl | hb
    · rcases List.mem_cons.1 hb' with rfl | hb'
      · rfl
      · rw [hb0d] at ha
        injection ha with ha2
        exact absurd ha2.symm (oldArrNe b' hb' a ha')
    · rcases List.mem_cons.1 hb' with rfl | hb'
      · rw [hb0d] at ha'
        injection ha' with ha2
        exact absurd ha2.symm (oldArrNe b hb a ha)
      · exact hi.dataFam b hb b' hb' a ha ha'
  · intro a ha
    rw [hNA] at ha
    rw [hA, if_neg (by omega)]
    exact hi.arraysBound a (by omega)
  · intro c hc
    rw [hNC] at hc
    rw [hC, if_neg (by omega)]
    exact hi.countersBound c (by omega)

theorem RefInv.alias {h : Heap} {l : List SharedBuffer} {src : SharedBuffer}
    (hi : RefInv h l) (hs : src ∈ l)
    (hg : ∀ c, src.refcount = some c → holders l c + 1 < U32MOD) :
    RefInv (SharedBuffer.copyCtor src h).2.1 ((SharedBuffer.copyCtor src h).1 :: l) := by
  rw [copyCtor_heap, copyCtor_fst]
  have memRed : ∀ b, b ∈ src :: l → b ∈ l := by
    intro b hb
    rcases List.mem_cons.1 hb with rfl | hb
    exacts [hs, hb]
  rcases hr : src.refcount with _ | c
  · rw [bumpCounter_none]
    have hsent : src = SharedBuffer.sentinel := by
      have hd := hi.dataOfRef src hs hr
      have hm : src.m_size = 0 := by
        by_contra hne
        have hq := hi.refOfSize src hs hne
        rw [hr] at hq
        cases hq
      cases src
      simp only at hd hm hr
      rw [hd, hm, hr]
      rfl
    rw [hsent]
    exact hi.consSentinel
  · have hv : h.counters c = some (holders l c) := hi.counterEq src hs c hr
    have hlt : holders l c + 1 < U32MOD := hg c hr
    rw [bumpCounter_some hv, Nat.mod_eq_of_lt hlt]
    have hC : ∀ x, (h.setCounter c (holders l c + 1)).counters x =
        if x = c then some (holders l c + 1) else h.counters x := fun _ => rfl
    have hcons : ∀ x, holders (src :: l) x =
        holders l x + (if c = x then 1 else 0) := by
      intro x
      rw [holders_cons]
      by_cases hx : c = x
      · rw [if_pos hx, if_pos (show src.refcount = some x by rw [hr, hx])]
      · rw [if_neg hx, if_neg (show ¬src.refcount = some x by
          intro hq; rw [hr] at hq; injection hq with hq2; exact hx hq2)]
    refine ⟨?_, ?_, ?_, ?_, ?_, ?_, ?_, ?_⟩
    · intro b hb x hx
      by_cases hxc : x = c
      · subst hxc
        rw [hC, if_pos rfl, hcons, if_pos rfl]
      · rw [hC, if_neg hxc, hcons, if_neg (fun hq => hxc hq.symm), Nat.add_zero]
        exact hi.counterEq b (memRed b hb) x hx
    · intro x
      rw [hcons]
      by_cases hx : c = x
      · subst hx
        rw [if_pos rfl]
        exact hlt
      · rw [if_neg hx, Nat.add_zero]
        exact hi.holdersLt x
    · intro b hb hc2
      exact hi.dataLive b (memRed b hb) hc2
    · intro b hb hc2
      exact hi.refOfSize b (memRed b hb) hc2
    · intro b hb hc2
      exact hi.dataOfRef b (memRed b hb) hc2
    · intro b hb b' hb' a ha ha'
      exact hi.dataFam b (memRed b hb) b' (memRed b' hb') a ha ha'
    · exact hi.arraysBound
    · intro x hx
      have hNC : (h.setCounter c (holders l c + 1)).nextC = h.nextC := rfl
      rw [hNC] at hx
      rw [hC]
      have hcx : c < h.nextC := by
        by_contra hcx
        have := hi.countersBound c (by omega)
        rw [this] at hv
        cases hv
      rw [if_neg (by omega)]
      exact hi.countersBound x hx

theorem dropOp_noneRef {b : SharedBuffer} (h : Heap) (hr : b.refcount = none) :
    b.dropOp h = (h, true) := by
  unfold SharedBuffer.dropOp
  rw [hr]

theorem dropOp_decrement {b : SharedBuffer} {c v : Nat} (h : Heap)
    (hr : b.refcount = some c) (hv : h.counters c = some v)
    (h2 : 2 ≤ v) (hlt : v < U32MOD) :
    b.dropOp h = (h.setCounter c (v - 1), true) := by
  unfold SharedBuffer.dropOp
  rw [hr]
  dsimp only
  rw [hv]
  dsimp only
  have hm : (v + (U32MOD - 1)) % U32MOD = v - 1 := by
    unfold U32MOD at hlt ⊢
    omega
  rw [hm, if_neg (by omega), decide_eq_true (by omega : 0 < v)]

theorem dropOp_last {b : SharedBuffer} {c a : Nat} (h : Heap)
    (hr : b.refcount = some c) (hv : h.counters c = some 1) (hd : b.data = some a) :
    b.dropOp h = ((h.freeArray a).freeCounter c, true) := by
  unfold SharedBuffer.dropOp
  rw [hr]
  dsimp only
  rw [hv]
  dsimp only
  have hm : (1 + (U32MOD - 1)) % U32MOD = 0 := by
    unfold U32MOD
    omega
  rw [hm, if_pos rfl, hd]
  rfl

theorem dropOp_underflow {b : SharedBuffer} {c : Nat} (h : Heap)
    (hr : b.refcount = some c) (hv : h.counters c = some 0) :
    (b.dropOp h).2 = false := by
  unfold SharedBuffer.dropOp
  rw [hr]
  dsimp only
  rw [hv]
  dsimp only
  have hm : (0 + (U32MOD - 1)) % U32MOD = U32MOD - 1 := by
    unfold U32MOD
    omega
  rw [hm, if_neg (by unfold U32MOD; omega)]
  rfl

theorem RefInv.eraseRefNone {h : Heap} {l : List SharedBuffer} {b : SharedBuffer}
    (hi : RefInv h l) (hb : b ∈ l) (hr : b.refcount = none) :
    RefInv h (l.erase b) := by
  have hkeep : ∀ x, holders (l.erase b) x = holders l x := by
    intro x
    rw [holders_erase_mem hb x, if_neg (fun hq => by rw [hr] at hq; cases hq), Nat.add_zero]
  refine ⟨?_, ?_, ?_, ?_, ?_, ?_, hi.arraysBound, hi.countersBound⟩
  · intro b' hb' x hx
    rw [hkeep]
    exact hi.counterEq b' (List.mem_of_mem_erase hb') x hx
  · intro x
    rw [hkeep]
    exact hi.holdersLt x
  · intro b' hb' hc'
    exact hi.dataLive b' (List.mem_of_mem_erase hb') hc'
  · intro b' hb' hc'
    exact hi.refOfSize b' (List.mem_of_mem_erase hb') hc'
  · intro b' hb' hc'
    exact hi.dataOfRef b' (List.mem_of_mem_erase hb') hc'
  · intro b' hb' b'' hb'' a ha ha'
    exact hi.dataFam b' (List.mem_of_mem_erase hb') b'' (List.mem_of_mem_erase hb'') a ha ha'

theorem dropOp_ok {h : Heap} {l : List SharedBuffer} {b : SharedBuffer}
    (hi : RefInv h l) (hb : b ∈ l) : (b.dropOp h).2 = true := by
  rcases hr : b.refcount with _ | c
  · rw [dropOp_noneRef h hr]
  · have hv := hi.counterEq b hb c hr
    have hpos : 0 < holders l c := holders_pos hb hr
    have hlt : holders l c < U32MOD := hi.holdersLt c
    by_cases h1 : holders l c = 1
    · obtain ⟨a, hd, _⟩ := hi.dataLive b hb (by rw [hr]; rfl)
      rw [dropOp_last h hr (by rw [hv, h1]) hd]
    · rw [dropOp_decrement h hr hv (by omega) hlt]

theorem RefInv.destroy {h : Heap} {l : List SharedBuffer} {b : SharedBuffer}
    (hi : RefInv h l) (hb : b ∈ l) :
    RefInv (b.dropOp h).1 (l.erase b) := by
  rcases hr : b.refcount with _ | c
  · rw [dropOp_noneRef h hr]
    exact hi.eraseRefNone hb hr
  · have hv := hi.counterEq b hb c hr
    have hpos : 0 < holders l c := holders_pos hb hr
    have hlt : holders l c < U32MOD := hi.holdersLt c
    have herase : holders l c = holders (l.erase b) c + 1 := by
      rw [holders_erase_mem hb c, if_pos hr]
    have hkeep : ∀ x, x ≠ c → holders (l.erase b) x = holders l x := by
      intro x hx
      rw [holders_erase_mem hb x, if_neg (fun hq => by
        rw [hr] at hq; injection hq with q; exact hx q.symm), Nat.add_zero]
    have hcx : c < h.nextC := by
      by_contra hq
      have := hi.countersBound c (by omega)
      rw [this] at hv
      cases hv
    by_cases h1 : holders l c = 1
    · obtain ⟨a, hd, hlive⟩ := hi.dataLive b hb (by rw [hr]; rfl)
      rw [dropOp_last h hr (by rw [hv, h1]) hd]
      have hzero : holders (l.erase b) c = 0 := by omega
      have hnofam : ∀ b' ∈ l.erase b, b'.refcount ≠ some c := by
        intro b' hb' hq
        have := holders_pos hb' hq
        omega
      have hnoarr : ∀ b' ∈ l.erase b, ∀ a', b'.data = some a' → a' ≠ a := by
        intro b' hb' a' ha' heq
        subst heq
        have hq := hi.dataFam b' (List.mem_of_mem_erase hb') b hb a' ha' hd
        rw [hr] at hq
        exact hnofam b' hb' hq
      have hA : ∀ x, (((h.freeArray a).freeCounter c)).arrays x =
          if x = a then none else h.arrays x := fun _ => rfl
      have hC : ∀ x, (((h.freeArray a).freeCounter c)).counters x =
          if x = c then none else h.counters x := fun _ => rfl
      have hNA : (((h.freeArray a).freeCounter c)).nextA = h.nextA := rfl
      have hNC : (((h.freeArray a).freeCounter c)).nextC = h.nextC := rfl
      refine ⟨?_, ?_, ?_, ?_, ?_, ?_, ?_, ?_⟩
      · intro b' hb' x hx
        have hxc : x ≠ c := fun heq => hnofam b' hb' (heq ▸ hx)
        rw [hC, if_neg hxc, hkeep x hxc]
        exact hi.counterEq b' (List.mem_of_mem_erase hb') x hx
      · intro x
        exact lt_of_le_of_lt (holders_erase_le l x) (hi.holdersLt x)
      · intro b' hb' hc'
        obtain ⟨a', hd', hlive'⟩ := hi.dataLive b' (List.mem_of_mem_erase hb') hc'
        refine ⟨a', hd', ?_⟩
        rw [hA, if_neg (hnoarr b' hb' a' hd')]
        exact hlive'
      · intro b' hb' hc'
        exact hi.refOfSize b' (List.mem_of_mem_erase hb') hc'
      · intro b' hb' hc'
        exact hi.dataOfRef b' (List.mem_of_mem_erase hb') hc'
      · intro b' hb' b'' hb'' a' ha ha'
        exact hi.dataFam b' (List.mem_of_mem_erase hb') b'' (List.mem_of_mem_erase hb'') a' ha ha'
      · intro x hx
        rw [hNA] at hx
        rw [hA]
        by_cases hxa : x = a
        · rw [if_pos hxa]
        · rw [if_neg hxa]
          exact hi.arraysBound x hx
      · intro x hx
        rw [hNC] at hx
        rw [hC]
        by_cases hxc : x = c
        · rw [if_pos hxc]
        · rw [if_neg hxc]
          exact hi.countersBound x hx
    · have h2 : 2 ≤ holders l c := by omega
      rw [dropOp_decrement h hr hv h2 hlt]
      have hC : ∀ x, (h.setCounter c (holders l c - 1)).counters x =
          if x = c then some (holders l c - 1) else h.counters x := fun _ => rfl
      have hNC : (h.setCounter c (holders l c - 1)).nextC = h.nextC := rfl
      refine ⟨?_, ?_, ?_, ?_, ?_, ?_, ?_, ?_⟩
      · intro b' hb' x hx
        by_cases hxc : x = c
        · subst hxc
          rw [hC, if_pos rfl]
          have : holders (l.erase b) x = holders l x - 1 := by omega
          rw [this]
        · rw [hC, if_neg hxc, hkeep x hxc]
          exact hi.counterEq b' (List.mem_of_mem_erase hb') x hx
      · intro x
        exact lt_of_le_of_lt (holders_erase_le l x) (hi.holdersLt x)
      · intro b' hb' hc'
        exact hi.dataLive b' (List.mem_of_mem_erase hb') hc'
      · intro b' hb' hc'
        exact hi.refOfSize b' (List.mem_of_mem_erase hb') hc'
      · intro b' hb' hc'
        exact hi.dataOfRef b' (List.mem_of_mem_erase hb') hc'
      · intro b' hb' b'' hb'' a' ha ha'
        exact hi.dataFam b' (List.mem_of_mem_erase hb') b'' (List.mem_of_mem_erase hb'') a' ha ha'
      · exact hi.arraysBound
      · intro x hx
        rw [hNC] at hx
        rw [hC, if_neg (by omega)]
        exact hi.countersBound x hx

theorem RefInv.replaceSameRef {h : Heap} {l : List SharedBuffer} {b : SharedBuffer}
    (hi : RefInv h l) (hb : b ∈ l) (m : Nat) (hm : m ≠ 0 → b.m_size ≠ 0) :
    RefInv h (⟨b.data, m, b.refcount⟩ :: l.erase b) := by
  have hH : ∀ x, holders ((⟨b.data, m, b.refcount⟩ : SharedBuffer) :: l.erase b) x =
      holders l x := by
    intro x
    rw [holders_cons, holders_erase_mem hb x]
  refine ⟨?_, ?_, ?_, ?_, ?_, ?_, hi.arraysBound, hi.countersBound⟩
  · intro b' hb' x hx
    rw [hH]
    rcases List.mem_cons.1 hb' with rfl | hb'
    · exact hi.counterEq b hb x hx
    · exact hi.counterEq b' (List.mem_of_mem_erase hb') x hx
  · intro x
    rw [hH]
    exact hi.holdersLt x
  · intro b' hb' hc'
    rcases List.mem_cons.1 hb' with rfl | hb'
    · exact hi.dataLive b hb hc'
    · exact hi.dataLive b' (List.mem_of_mem_erase hb') hc'
  · intro b' hb' hc'
    rcases List.mem_cons.1 hb' with rfl | hb'
    · exact hi.refOfSize b hb (hm hc')
    · exact hi.refOfSize b' (List.mem_of_mem_erase hb') hc'
  · intro b' hb' hc'
    rcases List.mem_cons.1 hb' with rfl | hb'
    · exact hi.dataOfRef b hb hc'
    · exact hi.dataOfRef b' (List.mem_of_mem_erase hb') hc'
  · intro b' hb' b'' hb'' a ha ha'
    rcases List.mem_cons.1 hb' with rfl | hb' <;> rcases List.mem_cons.1 hb'' with rfl | hb''
    · exact hi.dataFam b hb b hb a ha ha'
    · exact hi.dataFam b hb b'' (List.mem_of_mem_erase hb'') a ha ha'
    · exact hi.dataFam b' (List.mem_of_mem_erase hb') b hb a ha ha'
    · exact hi.dataFam b' (List.mem_of_mem_erase hb') b'' (List.mem_of_mem_erase hb'') a ha ha'

theorem RefInv.shrinkKeep {h : Heap} {l : List SharedBuffer} {b : SharedBuffer}
    (hi : RefInv h l) (hb : b ∈ l) (n : Nat) :
    RefInv h ((SharedBuffer.shrinkSize b n).1 :: l.erase b) := by
  unfold SharedBuffer.shrinkSize
  dsimp only
  by_cases hn : n ≤ b.m_size
  · rw [if_pos hn]
    refine hi.replaceSameRef hb (n % U32MOD) ?_
    intro hq hz
    rw [hz] at hn
    have : n = 0 := by omega
    rw [this] at hq
    exact hq rfl
  · rw [if_neg hn]
    exact hi.permList (List.perm_cons_erase hb)

theorem moveCtor_fst (b : SharedBuffer) : (SharedBuffer.moveCtor b).1 = b := rfl

theorem copyAssign_false_fst (lhs src : SharedBuffer) (h : Heap) :
    (SharedBuffer.copyAssign false lhs src h).1 = src := rfl

theorem copyAssign_false_heap (lhs src : SharedBuffer) (h : Heap) :
    (SharedBuffer.copyAssign false lhs src h).2.1 =
      bumpCounter (lhs.dropOp h).1 src.refcount := rfl

theorem copyAssign_false_ok (lhs src : SharedBuffer) (h : Heap) :
    (SharedBuffer.copyAssign false lhs src h).2.2 = (lhs.dropOp h).2 := rfl

theorem copyAssign_true (b : SharedBuffer) (h : Heap) :
    SharedBuffer.copyAssign true b b h = (b, h, true) := rfl

theorem create_zero {n : Nat} (h : Heap) (hz : n % U32MOD = 0) :
    SharedBuffer.create n h = (SharedBuffer.sentinel, h) := by
  unfold SharedBuffer.create
  dsimp only
  rw [if_neg (by omega)]

theorem create_pos {n : Nat} (h : Heap) (hz : n % U32MOD ≠ 0) :
    SharedBuffer.create n h =
      (⟨some h.nextA, n % U32MOD, some h.nextC⟩,
       ((h.allocArray (List.replicate (n % U32MOD) 0)).1.allocCounter 1).1) := by
  unfold SharedBuffer.create
  dsimp only
  rw [if_pos hz]
  rfl

theorem ofSpan_zero {xs : List Nat} {size : Nat} (h : Heap) (hz : size % U32MOD = 0) :
    SharedBuffer.ofSpan xs size h = (SharedBuffer.sentinel, h) := by
  unfold SharedBuffer.ofSpan
  dsimp only
  rw [if_neg (by omega)]

theorem ofSpan_pos {xs : List Nat} {size : Nat} (h : Heap) (hz : size % U32MOD ≠ 0) :
    SharedBuffer.ofSpan xs size h =
      (⟨some h.nextA, size % U32MOD, some h.nextC⟩,
       ((h.allocArray (xs.take (size % U32MOD))).1.allocCounter 1).1) := by
  unfold SharedBuffer.ofSpan
  dsimp only
  rw [if_pos hz]
  rfl

theorem refInv_empty : RefInv Heap.empty [] := by
  refine ⟨?_, ?_, ?_, ?_, ?_, ?_, ?_, ?_⟩
  · intro b hb
    cases hb
  · intro c
    show 0 < U32MOD
    unfold U32MOD
    omega
  · intro b hb
    cases hb
  · intro b hb
    cases hb
  · intro b hb
    cases hb
  · intro b hb
    cases hb
  · intro a _
    rfl
  · intro c _
    rfl

theorem reachableB_inv {h : Heap} {l : List SharedBuffer}
    (hr : ReachableB h l) : RefInv h l := by
  induction hr with
  | init => exact refInv_empty
  | dflt _ ih => exact ih.consSentinel
  | create n _ ih =>
    by_cases hz : n % U32MOD = 0
    · rw [create_zero _ hz]
      exact ih.consSentinel
    · rw [create_pos _ hz]
      exact ih.fresh _ _
  | span xs hlen _ ih =>
    by_cases hz : xs.length % U32MOD = 0
    · rw [ofSpan_zero _ hz]
      exact ih.consSentinel
    · rw [ofSpan_pos _ hz]
      exact ih.fresh _ _
  | copy _ hm hg ih => exact ih.alias hm hg
  | move hm hmem ih =>
    rw [moveCtor_fst]
    refine RefInv.permList ?_ ih.consSentinel
    exact ((List.perm_cons_erase hmem).cons _).trans
      (List.Perm.swap _ _ _)
  | @assign h2 l2 b2 src2 _ hmem hsm hg ih =>
    rw [copyAssign_false_heap, copyAssign_false_fst]
    have h1 : RefInv (b2.dropOp h2).1 (l2.erase b2) := ih.destroy hmem
    have hg2 : ∀ c, src2.refcount = some c → holders (l2.erase b2) c + 1 < U32MOD :=
      fun c hc =>
        Nat.lt_of_le_of_lt (Nat.add_le_add_right (holders_erase_le l2 c) 1) (hg c hc)
    have h3 := h1.alias hsm hg2
    rw [copyCtor_heap, copyCtor_fst] at h3
    exact h3
  | selfAssign _ hmem ih =>
    rw [copyAssign_true]
    exact ih.permList (List.perm_cons_erase hmem)
  | shrinkStep n _ hmem ih => exact ih.shrinkKeep hmem n
  | destroy _ hmem ih => exact ih.destroy hmem

theorem sbOne_eq : sbOne = ⟨some 0, 1, some 0⟩ := rfl

theorem copyN_live (n : Nat) : (copyN n).2 = List.replicate (n + 1) sbOne := by
  induction n with
  | zero => rfl
  | succ n ih =>
    show (SharedBuffer.copyCtor sbOne (copyN n).1).1 :: (copyN n).2 = _
    rw [copyCtor_fst, ih, List.replicate_succ, List.replicate_succ]
    rw [← List.replicate_succ]

theorem copyN_counter (n : Nat) : (copyN n).1.counters 0 = some ((n + 1) % U32MOD) := by
  induction n with
  | zero => rfl
  | succ n ih =>
    show ((SharedBuffer.copyCtor sbOne (copyN n).1).2.1).counters 0 = _
    rw [copyCtor_heap, show sbOne.refcount = some 0 from rfl, bumpCounter_some ih]
    show some (((n + 1) % U32MOD + 1) % U32MOD) = some ((n + 1 + 1) % U32MOD)
    rw [Nat.mod_add_mod]

theorem copyN_reachable (n : Nat) : Reachable (copyN n).1 (copyN n).2 := by
  induction n with
  | zero => exact Reachable.create 1 Reachable.init
  | succ n ih =>
    have hmem : sbOne ∈ (copyN n).2 := by
      rw [copyN_live]
      exact List.mem_replicate.2 ⟨Nat.succ_ne_zero n, rfl⟩
    exact Reachable.copy ih hmem

theorem holders_replicate (n : Nat) : holders (List.replicate n sbOne) 0 = n := by
  induction n with
  | zero => rfl
  | succ n ih =>
    rw [List.replicate_succ, holders_cons, ih,
      if_pos (show sbOne.refcount = some 0 from rfl)]

theorem grab_iter (k : Nat) : ∀ r : Nat, r < U32MOD →
    IRCState.grab^[k] (IRCState.live r) = IRCState.live ((r + k) % U32MOD) := by
  induction k with
  | zero =>
    intro r hr
    simp [Nat.mod_eq_of_lt hr]
  | succ k ih =>
    intro r hr
    rw [Function.iterate_succ_apply]
    show IRCState.grab^[k] (IRCState.live ((r + 1) % U32MOD)) = _
    rw [ih _ (Nat.mod_lt _ (by unfold U32MOD; omega))]
    congr 1
    rw [Nat.mod_add_mod]
    congr 1
    omega

theorem drop_live (v : Nat) (hv : v < U32MOD) (h2 : 2 ≤ v) :
    IRCState.drop (IRCState.live v) = IRCState.live (v - 1) := by
  show (if (v + (U32MOD - 1)) % U32MOD = 0 then IRCState.deleted
        else IRCState.live ((v + (U32MOD - 1)) % U32MOD)) = _
  have hm : (v + (U32MOD - 1)) % U32MOD = v - 1 := by
    unfold U32MOD at hv ⊢
    omega
  rw [hm, if_neg (by omega)]

theorem drop_live_one : IRCState.drop (IRCState.live 1) = IRCState.deleted := by
  show (if (1 + (U32MOD - 1)) % U32MOD = 0 then IRCState.deleted
        else IRCState.live ((1 + (U32MOD - 1)) % U32MOD)) = _
  rw [if_pos (by unfold U32MOD; omega)]

theorem drop_iter_of_lt (k : Nat) : ∀ v : Nat, v < U32MOD → k < v →
    IRCState.drop^[k] (IRCState.live v) = IRCState.live (v - k) := by
  induction k with
  | zero =>
    intro v _ _
    simp
  | succ k ih =>
    intro v hv hk
    rw [Function.iterate_succ_apply, drop_live v hv (by omega),
      ih (v - 1) (by omega) (by omega)]
    congr 1
    omega

theorem drop_iter_deleted (k : Nat) :
    IRCState.drop^[k + 1] IRCState.deleted = IRCState.corrupt := by
  induction k with
  | zero => rfl
  | succ k ih =>
    rw [Function.iterate_succ_apply', ih]
    rfl

/-- Claim C10: copy-assigning a `SharedBuffer` to itself (`b = b`, the
`this == &buffer` early-return branch of `operator=` at pointer.h:184-185)
is a no-op: the instance is unchanged, the heap — hence the shared
counter's value and the allocation — is unchanged and nothing is released,
for every instance, including a last holder (counter = 1). -/
theorem C10_self_assign (b : SharedBuffer) (h : Heap) :
    (SharedBuffer.copyAssign true b b h).1 = b ∧
    (SharedBuffer.copyAssign true b b h).2.1 = h ∧
    (SharedBuffer.copyAssign true b b h).2.2 = true ∧
    ((SharedBuffer.copyAssign true b b h).2.1).counters = h.counters ∧
    ((SharedBuffer.copyAssign true b b h).2.1).arrays = h.arrays :=
  ⟨rfl, rfl, rfl, rfl, rfl⟩

/-- Claim C5, evaluated at the failing input: `corruptSB` is a non-empty
`SharedBuffer` with a null counter — exactly the corrupted state the claimed
defensive assert is supposed to reject — yet copy construction from it
passes its assertion (the `assert(refcount || (!m_size && !data))` at
pointer.h:163 reads the destination's default-initialized members, so it is
a tautology) and performs no counter increment, and copy assignment from it
performs no assertion on the aliasing path at all (the only assert it can
reach sits inside the destination's `drop()`, trivially satisfied here by
the empty destination).  So neither operation asserts the invariant of the
non-empty instance involved. -/
theorem C5_assert_evaluation :
    corruptSB.m_size ≠ 0 ∧ corruptSB.refcount = none ∧
    SharedBuffer.copyCtor corruptSB Heap.empty = (corruptSB, Heap.empty, true) ∧
    SharedBuffer.copyAssign false SharedBuffer.sentinel corruptSB Heap.empty =
      (corruptSB, Heap.empty, true) :=
  ⟨by decide, rfl, rfl, rfl⟩

/-- Claim C7: for both `Buffer` and `SharedBuffer`, `shrinkSize(new_size)`
with `new_size ≤ m_size` sets the logical size to `new_size`, keeps the
same data pointer and counter (no reallocation; the heap is not an input or
output of the operation, so the freed tail is untouched), and its assertion
condition holds; with `new_size > m_size` the assertion fails and, on the
non-fatal assertions-disabled path, the object is left entirely
unchanged. -/
theorem C7_shrink (b : Buffer) (sb : SharedBuffer) (n m : Nat)
    (hs : sb.m_size < U32MOD) :
    (n ≤ b.m_size → b.shrinkSize n = (⟨b.data, n⟩, true)) ∧
    (¬n ≤ b.m_size → b.shrinkSize n = (b, false)) ∧
    (m ≤ sb.m_size → sb.shrinkSize m = (⟨sb.data, m, sb.refcount⟩, true)) ∧
    (¬m ≤ sb.m_size → sb.shrinkSize m = (sb, false)) := by
  refine ⟨?_, ?_, ?_, ?_⟩
  · intro hn
    unfold Buffer.shrinkSize
    rw [if_pos hn, decide_eq_true hn]
  · intro hn
    unfold Buffer.shrinkSize
    rw [if_neg hn, decide_eq_false hn]
  · intro hm
    unfold SharedBuffer.shrinkSize
    rw [if_pos hm, decide_eq_true hm, Nat.mod_eq_of_lt (lt_of_le_of_lt hm hs)]
  · intro hm
    unfold SharedBuffer.shrinkSize
    rw [if_neg hm, decide_eq_false hm]

/-- Witness for C7 at concrete inputs: an in-range shrink of a `Buffer` of
size 3 to 2 and an out-of-range shrink of a `SharedBuffer` of size 3 to
5. -/
theorem C7_witness :
    (Buffer.mk (some 0) 3).shrinkSize 2 = (⟨some 0, 2⟩, true) ∧
    (SharedBuffer.mk (some 1) 3 (some 0)).shrinkSize 5 =
      (⟨some 1, 3, some 0⟩, false) :=
  ⟨(C7_shrink ⟨some 0, 3⟩ ⟨some 1, 3, some 0⟩ 2 5 (by decide)).1 (by decide),
   (C7_shrink ⟨some 0, 3⟩ ⟨some 1, 3, some 0⟩ 2 5 (by decide)).2.2.2 (by decide)⟩

/-- Counterexample to claim C1: start from `SharedBuffer(2)` (call it `b1`),
copy-construct a second holder `b2` of the same allocation (same `data`,
same `refcount`), then `b1.shrinkSize(1)` with `1 ≤ 2`.  The claim predicts
the logical size observed by ALL holders becomes 1; in fact `m_size` is a
per-instance field (pointer.h:268), the shrink writes only the calling
instance's `m_size`, and `b2` still observes size 2. -/
theorem C1_counterexample :
    (SharedBuffer.copyCtor (SharedBuffer.create 2 Heap.empty).1
       (SharedBuffer.create 2 Heap.empty).2).1.refcount
      = ((SharedBuffer.create 2 Heap.empty).1).refcount ∧
    (SharedBuffer.copyCtor (SharedBuffer.create 2 Heap.empty).1
       (SharedBuffer.create 2 Heap.empty).2).1.data
      = ((SharedBuffer.create 2 Heap.empty).1).data ∧
    1 ≤ ((SharedBuffer.create 2 Heap.empty).1).m_size ∧
    (((SharedBuffer.create 2 Heap.empty).1).shrinkSize 1).1.m_size = 1 ∧
    (SharedBuffer.copyCtor (SharedBuffer.create 2 Heap.empty).1
       (SharedBuffer.create 2 Heap.empty).2).1.m_size = 2 ∧
    ¬((SharedBuffer.copyCtor (SharedBuffer.create 2 Heap.empty).1
        (SharedBuffer.create 2 Heap.empty).2).1.m_size
      = (((SharedBuffer.create 2 Heap.empty).1).shrinkSize 1).1.m_size) := by
  decide

/-- Claim C1 (amended): `m_size` is a per-instance field, so
`shrinkSize(newSize)` with `newSize ≤ currentSize` mutates the logical size
of the calling instance only: that instance's size becomes `newSize`, its
assertion holds, and it still references the other holders' shared `data`
and `refcount` unchanged; every other holder, not being written at all,
keeps its own `m_size`. -/
theorem C1_amended (b other : SharedBuffer) (n : Nat) (hn : n ≤ b.m_size)
    (hfit : b.m_size < U32MOD)
    (hd : other.data = b.data) (hc : other.refcount = b.refcount) :
    (b.shrinkSize n).1.m_size = n ∧
    (b.shrinkSize n).2 = true ∧
    (b.shrinkSize n).1.data = other.data ∧
    (b.shrinkSize n).1.refcount = other.refcount := by
  unfold SharedBuffer.shrinkSize
  dsimp only
  rw [if_pos hn, decide_eq_true hn, hd, hc]
  exact ⟨Nat.mod_eq_of_lt (lt_of_le_of_lt hn hfit), rfl, rfl, rfl⟩

/-- Witness for C1 (amended) at a concrete instance of size 2 shrunk to
1, aliased by an identical second holder. -/
theorem C1_witness :
    ((⟨some 0, 2, some 0⟩ : SharedBuffer).shrinkSize 1).1.m_size = 1 ∧
    ((⟨some 0, 2, some 0⟩ : SharedBuffer).shrinkSize 1).2 = true ∧
    ((⟨some 0, 2, some 0⟩ : SharedBuffer).shrinkSize 1).1.data =
      (⟨some 0, 2, some 0⟩ : SharedBuffer).data ∧
    ((⟨some 0, 2, some 0⟩ : SharedBuffer).shrinkSize 1).1.refcount =
      (⟨some 0, 2, some 0⟩ : SharedBuffer).refcount :=
  C1_amended ⟨some 0, 2, some 0⟩ ⟨some 0, 2, some 0⟩ 1 (by decide) (by decide)
    rfl rfl

/-- Counterexample to claim C2: `SharedBuffer` declares no move-assignment
operator, so assigning from an rvalue (`d = std::move(s)`) selects
`operator=(const SharedBuffer &)`.  With `s = sbOne` the sole holder of its
allocation (counter = 1) and `d` empty, after the assignment the shared
counter is 2 — the claim says the counter value is untouched — and the
source, a const operand the operation never writes, is still non-empty, not
the empty sentinel the claim requires. -/
theorem C2_counterexample :
    ((SharedBuffer.create 1 Heap.empty).2).counters 0 = some 1 ∧
    (SharedBuffer.moveAssignRValue SharedBuffer.sentinel sbOne
       (SharedBuffer.create 1 Heap.empty).2).2.1.counters 0 = some 2 ∧
    sbOne.m_size = 1 ∧ sbOne.data = some 0 ∧ sbOne.refcount = some 0 ∧
    ¬(sbOne = SharedBuffer.sentinel) := by
  decide

/-- Claim C2 (amended): move construction transfers the ownership stake
without touching any counter (the operation does not read or write the heap
at all), gives the destination the source's size, data and counter pointer,
and leaves the source as the empty sentinel.  Assignment from an rvalue,
however, invokes the copy-assignment operator — the class declares no
move-assignment operator — so the destination comes to alias the source and
the source's live counter is incremented (u32); the source object itself is
left untouched. -/
theorem C2_amended (b lhs : SharedBuffer) (h : Heap) (c v : Nat)
    (hb : b.refcount = some c) (hl : lhs.refcount = none)
    (hv : h.counters c = some v) :
    SharedBuffer.moveCtor b = (b, SharedBuffer.sentinel) ∧
    (SharedBuffer.moveAssignRValue lhs b h).1 = b ∧
    (SharedBuffer.moveAssignRValue lhs b h).2.1.counters c =
      some ((v + 1) % U32MOD) := by
  refine ⟨rfl, rfl, ?_⟩
  show (bumpCounter (lhs.dropOp h).1 b.refcount).counters c = some ((v + 1) % U32MOD)
  rw [dropOp_noneRef h hl]
  dsimp only
  rw [hb, bumpCounter_some hv]
  show (if c = c then some ((v + 1) % U32MOD) else h.counters c) =
    some ((v + 1) % U32MOD)
  rw [if_pos rfl]

/-- Witness for C2 (amended): moving `sbOne` by construction, and assigning
it from an rvalue into an empty destination with its counter at 1. -/
theorem C2_witness :
    SharedBuffer.moveCtor sbOne = (sbOne, SharedBuffer.sentinel) ∧
    (SharedBuffer.moveAssignRValue SharedBuffer.sentinel sbOne
       (SharedBuffer.create 1 Heap.empty).2).1 = sbOne ∧
    (SharedBuffer.moveAssignRValue SharedBuffer.sentinel sbOne
       (SharedBuffer.create 1 Heap.empty).2).2.1.counters 0 =
      some ((1 + 1) % U32MOD) :=
  C2_amended sbOne SharedBuffer.sentinel (SharedBuffer.create 1 Heap.empty).2
    0 1 rfl rfl rfl

/-- Counterexample to claim C3: `SharedBuffer(2^32)` (a legitimate `size_t`
argument on a 64-bit platform) stores `2^32` into the 32-bit `m_size`,
which truncates to 0, so the constructor takes the empty-sentinel branch:
the result has size 0, not `2^32`, holds no allocation and no counter, and
the heap is untouched. -/
theorem C3_counterexample :
    (SharedBuffer.create 4294967296 Heap.empty).1.m_size = 0 ∧
    ¬((SharedBuffer.create 4294967296 Heap.empty).1.m_size = 4294967296) ∧
    (SharedBuffer.create 4294967296 Heap.empty).1 = SharedBuffer.sentinel ∧
    (SharedBuffer.create 4294967296 Heap.empty).2 = Heap.empty := by
  have hz : (4294967296 : Nat) % U32MOD = 0 := by
    unfold U32MOD
    omega
  rw [create_zero Heap.empty hz]
  exact ⟨rfl, by decide, rfl, rfl⟩

/-- Claim C3 (amended): `create(n)` yields a buffer of size `n % 2^32` (the
`size_t` argument is stored into the 32-bit `m_size` field).  When
`n % 2^32 = 0` — so for `n = 0` but also for every positive multiple of
`2^32` — the result is the empty sentinel holding no allocation and no
counter cell, and the heap is untouched; when `n % 2^32 ≠ 0` it holds a
fresh zero-initialized allocation of `n % 2^32` elements and a fresh
counter cell equal to 1. -/
theorem C3_amended (n : Nat) (h : Heap) :
    (SharedBuffer.create n h).1.m_size = n % U32MOD ∧
    (n % U32MOD = 0 → SharedBuffer.create n h = (SharedBuffer.sentinel, h)) ∧
    (n % U32MOD ≠ 0 →
      (SharedBuffer.create n h).1.data = some h.nextA ∧
      (SharedBuffer.create n h).1.refcount = some h.nextC ∧
      (SharedBuffer.create n h).2.arrays h.nextA =
        some (List.replicate (n % U32MOD) 0) ∧
      (SharedBuffer.create n h).2.counters h.nextC = some 1 ∧
      (SharedBuffer.create n h).2.nextA = h.nextA + 1 ∧
      (SharedBuffer.create n h).2.nextC = h.nextC + 1) := by
  by_cases hz : n % U32MOD = 0
  · rw [create_zero h hz]
    exact ⟨by rw [hz]; rfl, fun _ => rfl, fun hq => absurd hz hq⟩
  · rw [create_pos h hz]
    refine ⟨rfl, fun hq => absurd hq hz, fun _ => ⟨rfl, rfl, ?_, ?_, rfl, rfl⟩⟩
    · show (if h.nextA = h.nextA then some (List.replicate (n % U32MOD) 0)
          else h.arrays h.nextA) = some (List.replicate (n % U32MOD) 0)
      rw [if_pos rfl]
    · show (if h.nextC = h.nextC then some 1
          else ((h.allocArray (List.replicate (n % U32MOD) 0)).1).counters h.nextC)
        = some 1
      rw [if_pos rfl]

/-- Witness for C3 (amended): `create(5)` on the empty heap has size
`5 % 2^32` and a fresh counter cell equal to 1. -/
theorem C3_witness :
    (SharedBuffer.create 5 Heap.empty).1.m_size = 5 % U32MOD ∧
    (SharedBuffer.create 5 Heap.empty).2.counters Heap.empty.nextC = some 1 :=
  ⟨(C3_amended 5 Heap.empty).1,
   ((C3_amended 5 Heap.empty).2.2 (by decide)).2.2.2.1⟩

theorem moveCtorB_pos {b : Buffer} (hs : b.m_size ≠ 0) :
    Buffer.moveCtor b = (b, ⟨none, 0⟩) := by
  unfold Buffer.moveCtor
  rw [if_pos hs]

theorem moveCtorB_zero {b : Buffer} (hs : b.m_size = 0) :
    Buffer.moveCtor b = (⟨none, 0⟩, b) := by
  unfold Buffer.moveCtor
  rw [if_neg (fun hq => hq hs), hs]

theorem moveAssignB_pos (lhs : Buffer) {src : Buffer} (h : Heap)
    (hs : src.m_size ≠ 0) :
    Buffer.moveAssign false lhs src h = (src, ⟨none, 0⟩, lhs.dropB h) := by
  unfold Buffer.moveAssign
  rw [if_neg Bool.false_ne_true]
  dsimp only
  rw [if_pos hs]

theorem moveAssignB_zero (lhs : Buffer) {src : Buffer} (h : Heap)
    (hs : src.m_size = 0) :
    Buffer.moveAssign false lhs src h = (⟨none, 0⟩, src, lhs.dropB h) := by
  unfold Buffer.moveAssign
  rw [if_neg Bool.false_ne_true]
  dsimp only
  rw [if_neg (fun hq => hq hs), hs]

theorem contentsInB_none {b : Buffer} (h : Heap) (hd : b.data = none) :
    b.contentsIn h = [] := by
  unfold Buffer.contentsIn
  rw [hd]

theorem contentsInB_some {b : Buffer} {a : Nat} (h : Heap) (hd : b.data = some a) :
    b.contentsIn h = (h.arrays a).getD [] := by
  unfold Buffer.contentsIn
  rw [hd]

theorem dropB_noneData {b : Buffer} (h : Heap) (hd : b.data = none) :
    b.dropB h = h := by
  unfold Buffer.dropB
  rw [hd]

theorem dropB_someData {b : Buffer} {a : Nat} (h : Heap) (hd : b.data = some a) :
    b.dropB h = h.freeArray a := by
  unfold Buffer.dropB
  rw [hd]

/-- Claim C6: for every well-formed `Buffer` source `b` (null data iff size
zero) and destination `lhs` not aliasing `b` (exclusive buffers never
alias), move construction and move assignment give the destination `b`'s
original size and contents, leave the source in the empty state (size 0,
null data), destroying the emptied source afterwards leaves the
destination's contents intact, and self-move-assignment (the
`this == &buffer` branch) is a no-op preserving object and heap. -/
theorem C6_move_semantics (b lhs : Buffer) (h : Heap)
    (hb : b.data = none ↔ b.m_size = 0)
    (hl : ∀ a, lhs.data = some a → b.data ≠ some a) :
    ((Buffer.moveCtor b).1.m_size = b.m_size ∧
     (Buffer.moveCtor b).1.contentsIn h = b.contentsIn h ∧
     (Buffer.moveCtor b).2.m_size = 0 ∧
     (Buffer.moveCtor b).2.data = none ∧
     (Buffer.moveCtor b).1.contentsIn (Buffer.dropB (Buffer.moveCtor b).2 h) =
       b.contentsIn h) ∧
    ((Buffer.moveAssign false lhs b h).1.m_size = b.m_size ∧
     (Buffer.moveAssign false lhs b h).1.contentsIn
        (Buffer.moveAssign false lhs b h).2.2 = b.contentsIn h ∧
     (Buffer.moveAssign false lhs b h).2.1.m_size = 0 ∧
     (Buffer.moveAssign false lhs b h).2.1.data = none ∧
     (Buffer.moveAssign false lhs b h).1.contentsIn
        (Buffer.dropB (Buffer.moveAssign false lhs b h).2.1
          (Buffer.moveAssign false lhs b h).2.2) = b.contentsIn h) ∧
    Buffer.moveAssign true b b h = (b, b, h) := by
  by_cases hsz : b.m_size = 0
  · have hd : b.data = none := hb.mpr hsz
    rw [moveCtorB_zero hsz, moveAssignB_zero lhs h hsz]
    refine ⟨⟨hsz.symm, ?_, hsz, hd, ?_⟩, ⟨hsz.symm, ?_, hsz, hd, ?_⟩, rfl⟩
    · rw [@contentsInB_none ⟨none, 0⟩ h rfl, contentsInB_none h hd]
    · rw [dropB_noneData h hd, @contentsInB_none ⟨none, 0⟩ h rfl,
        contentsInB_none h hd]
    · rw [@contentsInB_none ⟨none, 0⟩ (lhs.dropB h) rfl, contentsInB_none h hd]
    · rw [dropB_noneData (lhs.dropB h) hd,
        @contentsInB_none ⟨none, 0⟩ (lhs.dropB h) rfl, contentsInB_none h hd]
  · rcases hdq : b.data with _ | a
    · exact absurd (hb.mp hdq) hsz
    rw [moveCtorB_pos hsz, moveAssignB_pos lhs h hsz]
    have hheap : ∀ h2 : Heap, Buffer.contentsIn b (lhs.dropB h2) = b.contentsIn h2 := by
      intro h2
      rcases hlq : lhs.data with _ | a2
      · rw [dropB_noneData h2 hlq]
      · rw [dropB_someData h2 hlq, contentsInB_some _ hdq, contentsInB_some h2 hdq]
        have hne : a ≠ a2 := fun heq => hl a2 hlq (heq ▸ hdq)
        show ((if a = a2 then none else h2.arrays a).getD []) = (h2.arrays a).getD []
        rw [if_neg hne]
    refine ⟨⟨rfl, rfl, rfl, rfl, ?_⟩, ⟨rfl, hheap h, rfl, rfl, ?_⟩, rfl⟩
    · rw [@dropB_noneData ⟨none, 0⟩ h rfl]
    · rw [@dropB_noneData ⟨none, 0⟩ (lhs.dropB h) rfl]
      exact hheap h

/-- Witness for C6 at concrete inputs: source `bW = ⟨some 0, 1⟩` holding
`[7]`, destination `dW = ⟨some 1, 1⟩` holding `[9]`, in heap `hW`. -/
theorem C6_witness :
    (Buffer.moveCtor bW).1.contentsIn hW = bW.contentsIn hW ∧
    (Buffer.moveAssign false dW bW hW).1.contentsIn
       (Buffer.moveAssign false dW bW hW).2.2 = bW.contentsIn hW ∧
    (Buffer.moveAssign false dW bW hW).2.1.data = none ∧
    Buffer.moveAssign true bW bW hW = (bW, bW, hW) := by
  have hl : ∀ a, dW.data = some a → bW.data ≠ some a := by
    intro a ha
    rw [show dW.data = some 1 from rfl] at ha
    injection ha with q
    subst q
    decide
  have hc := C6_move_semantics bW dW hW (by decide) hl
  exact ⟨hc.1.2.1, hc.2.1.2.1, hc.2.1.2.2.2.1, hc.2.2⟩

theorem ofSpanB_pos {xs : List Nat} {size : Nat} (h : Heap) (hs : size ≠ 0) :
    Buffer.ofSpan xs size h =
      (⟨some h.nextA, size⟩, (h.allocArray (xs.take size)).1) := by
  unfold Buffer.ofSpan
  rw [if_pos hs]
  rfl

theorem ofSpanB_zero {xs : List Nat} {size : Nat} (h : Heap) (hs : size = 0) :
    Buffer.ofSpan xs size h = (⟨none, 0⟩, h) := by
  unfold Buffer.ofSpan
  rw [if_neg (fun hq => hq hs), hs]

theorem contentsInS_none {b : SharedBuffer} (h : Heap) (hd : b.data = none) :
    b.contentsIn h = [] := by
  unfold SharedBuffer.contentsIn
  rw [hd]

theorem contentsInS_some {b : SharedBuffer} {a : Nat} (h : Heap)
    (hd : b.data = some a) : b.contentsIn h = (h.arrays a).getD [] := by
  unfold SharedBuffer.contentsIn
  rw [hd]

/-- Claim C8 (amended): for every well-formed `Buffer` `b` whose size fits
the 32-bit `m_size` of `SharedBuffer` (`b.m_size < 2^32`), the round trip
`Buffer → SharedBuffer → Buffer` through the two documented duplicating
conversions preserves the size and the contents element for element, and
each step produces a disjoint fresh allocation (the three data addresses
are pairwise distinct); when `b` is empty (size 0) each conversion yields
the empty state and allocates nothing (the heap is returned untouched). -/
theorem C8_amended (b : Buffer) (h : Heap)
    (hwf : b.data = none ↔ b.m_size = 0)
    (harr : ∀ a, b.data = some a → ∃ xs, h.arrays a = some xs ∧
      xs.length = b.m_size)
    (hfit : b.m_size < U32MOD)
    (hbound : ∀ x, h.nextA ≤ x → h.arrays x = none) :
    (SharedBuffer.ofBuffer b h).1.m_size = b.m_size ∧
    (SharedBuffer.ofBuffer b h).1.contentsIn (SharedBuffer.ofBuffer b h).2 =
      b.contentsIn h ∧
    (SharedBuffer.toBuffer (SharedBuffer.ofBuffer b h).1
       (SharedBuffer.ofBuffer b h).2).1.m_size = b.m_size ∧
    (SharedBuffer.toBuffer (SharedBuffer.ofBuffer b h).1
       (SharedBuffer.ofBuffer b h).2).1.contentsIn
      (SharedBuffer.toBuffer (SharedBuffer.ofBuffer b h).1
        (SharedBuffer.ofBuffer b h).2).2 = b.contentsIn h ∧
    (b.m_size ≠ 0 →
      ∃ a a1 a2, b.data = some a ∧
        (SharedBuffer.ofBuffer b h).1.data = some a1 ∧
        (SharedBuffer.toBuffer (SharedBuffer.ofBuffer b h).1
          (SharedBuffer.ofBuffer b h).2).1.data = some a2 ∧
        a ≠ a1 ∧ a ≠ a2 ∧ a1 ≠ a2) ∧
    (b.m_size = 0 →
      (SharedBuffer.ofBuffer b h).1 = SharedBuffer.sentinel ∧
      (SharedBuffer.ofBuffer b h).2 = h ∧
      (SharedBuffer.toBuffer (SharedBuffer.ofBuffer b h).1
        (SharedBuffer.ofBuffer b h).2).1 = ⟨none, 0⟩ ∧
      (SharedBuffer.toBuffer (SharedBuffer.ofBuffer b h).1
        (SharedBuffer.ofBuffer b h).2).2 = h) := by
  by_cases hsz : b.m_size = 0
  · have hd : b.data = none := hwf.mpr hsz
    have e1 : SharedBuffer.ofBuffer b h = (SharedBuffer.sentinel, h) := by
      unfold SharedBuffer.ofBuffer
      exact ofSpan_zero h (by rw [hsz]; exact Nat.zero_mod _)
    have e2 : SharedBuffer.toBuffer SharedBuffer.sentinel h = (⟨none, 0⟩, h) := by
      unfold SharedBuffer.toBuffer
      rw [contentsInS_none h rfl]
      exact ofSpanB_zero h rfl
    rw [e1]
    dsimp only
    rw [e2]
    dsimp only
    refine ⟨hsz.symm, ?_, hsz.symm, ?_, fun hq => absurd hsz hq,
      fun _ => ⟨rfl, rfl, rfl, rfl⟩⟩
    · rw [contentsInS_none h rfl, contentsInB_none h hd]
    · rw [@contentsInB_none ⟨none, 0⟩ h rfl, contentsInB_none h hd]
  · rcases hd : b.data with _ | a
    · exact absurd (hwf.mp hd) hsz
    obtain ⟨xs, hxs, hlen⟩ := harr a hd
    have hc1 : b.contentsIn h = xs := by
      rw [contentsInB_some h hd, hxs]
      rfl
    have hmod : b.m_size % U32MOD = b.m_size := Nat.mod_eq_of_lt hfit
    have htake : (b.contentsIn h).take (b.m_size % U32MOD) = xs := by
      rw [hmod, hc1, ← hlen, List.take_length]
    have e1 : SharedBuffer.ofBuffer b h =
        (⟨some h.nextA, b.m_size, some h.nextC⟩,
         ((h.allocArray xs).1.allocCounter 1).1) := by
      unfold SharedBuffer.ofBuffer
      rw [ofSpan_pos h (by rw [hmod]; exact hsz), htake, hmod]
    have haLT : a < h.nextA := by
      by_contra hq
      have := hbound a (by omega)
      rw [this] at hxs
      cases hxs
    have hA1 : ∀ x, (((h.allocArray xs).1.allocCounter 1).1).arrays x =
        if x = h.nextA then some xs else h.arrays x := fun _ => rfl
    have hN1 : (((h.allocArray xs).1.allocCounter 1).1).nextA = h.nextA + 1 := rfl
    have htake2 : xs.take b.m_size = xs := by
      rw [← hlen, List.take_length]
    have e2 : SharedBuffer.toBuffer
        (⟨some h.nextA, b.m_size, some h.nextC⟩ : SharedBuffer)
        (((h.allocArray xs).1.allocCounter 1).1) =
        (⟨some (h.nextA + 1), b.m_size⟩,
         ((((h.allocArray xs).1.allocCounter 1).1).allocArray xs).1) := by
      unfold SharedBuffer.toBuffer
      rw [contentsInS_some _ rfl, hA1, if_pos rfl]
      show Buffer.ofSpan xs b.m_size _ = _
      rw [ofSpanB_pos _ hsz, htake2, hN1]
    rw [e1]
    dsimp only
    rw [e2]
    dsimp only
    have hA2 : ∀ x,
        (((((h.allocArray xs).1.allocCounter 1).1).allocArray xs).1).arrays x =
        if x = h.nextA + 1 then some xs
        else if x = h.nextA then some xs else h.arrays x := fun _ => rfl
    refine ⟨rfl, ?_, rfl, ?_, fun _ => ⟨a, h.nextA, h.nextA + 1, rfl, rfl, rfl,
      by omega, by omega, by omega⟩, fun hq => absurd hq hsz⟩
    · rw [contentsInS_some _ rfl, hA1, if_pos rfl, hc1]
      rfl
    · rw [@contentsInB_some ⟨some (h.nextA + 1), b.m_size⟩ (h.nextA + 1) _ rfl,
        hA2, if_pos rfl, hc1]
      rfl

/-- Witness for C8 (amended) at the concrete one-element buffer `bW`
holding `[7]` in heap `hW`: the round trip preserves size and contents. -/
theorem C8_witness :
    (SharedBuffer.ofBuffer bW hW).1.m_size = bW.m_size ∧
    (SharedBuffer.toBuffer (SharedBuffer.ofBuffer bW hW).1
      (SharedBuffer.ofBuffer bW hW).2).1.contentsIn
      (SharedBuffer.toBuffer (SharedBuffer.ofBuffer bW hW).1
        (SharedBuffer.ofBuffer bW hW).2).2 = bW.contentsIn hW := by
  have harr : ∀ a, bW.data = some a →
      ∃ xs, hW.arrays a = some xs ∧ xs.length = bW.m_size := by
    intro a ha
    rw [show bW.data = some 0 from rfl] at ha
    injection ha with q
    subst q
    exact ⟨[7], rfl, rfl⟩
  have hbound : ∀ x, hW.nextA ≤ x → hW.arrays x = none := by
    intro x hx
    have hx2 : 2 ≤ x := hx
    show (if x = 0 then some [7] else if x = 1 then some [9] else none) = none
    rw [if_neg (by omega), if_neg (by omega)]
  have hc := C8_amended bW hW (by decide) harr (by decide) hbound
  exact ⟨hc.1, hc.2.2.2.1⟩

/-- Counterexample to claim C8: converting the well-formed `2^32`-element
`Buffer` `bBig` to a `SharedBuffer` routes `buffer.getSize()` through the
32-bit `m_size` of the span constructor, where `2^32` truncates to 0: the
conversion yields the empty sentinel (allocating nothing), and converting
back yields a `Buffer` of size 0 — the round trip loses the size and all
`2^32` elements instead of preserving them byte for byte. -/
theorem C8_counterexample :
    bBig.m_size = 4294967296 ∧
    bBig.contentsIn hBig = List.replicate 4294967296 0 ∧
    (SharedBuffer.ofBuffer bBig hBig).1 = SharedBuffer.sentinel ∧
    (SharedBuffer.ofBuffer bBig hBig).2 = hBig ∧
    (SharedBuffer.toBuffer (SharedBuffer.ofBuffer bBig hBig).1
      (SharedBuffer.ofBuffer bBig hBig).2).1.m_size = 0 ∧
    ¬((SharedBuffer.toBuffer (SharedBuffer.ofBuffer bBig hBig).1
      (SharedBuffer.ofBuffer bBig hBig).2).1.m_size = bBig.m_size) := by
  have e0 : bBig.contentsIn hBig = List.replicate 4294967296 0 := by
    rw [contentsInB_some hBig (show bBig.data = some 0 from rfl)]
    show ((if (0 : Nat) = 0 then some (List.replicate 4294967296 0)
      else none).getD []) = List.replicate 4294967296 0
    rw [if_pos rfl]
    rfl
  have e1 : SharedBuffer.ofBuffer bBig hBig = (SharedBuffer.sentinel, hBig) := by
    unfold SharedBuffer.ofBuffer
    exact ofSpan_zero hBig
      (by show (4294967296 : Nat) % U32MOD = 0; unfold U32MOD; omega)
  have e2 : SharedBuffer.toBuffer SharedBuffer.sentinel hBig =
      (⟨none, 0⟩, hBig) := by
    unfold SharedBuffer.toBuffer
    rw [contentsInS_none hBig rfl]
    exact ofSpanB_zero hBig rfl
  refine ⟨rfl, e0, ?_, ?_, ?_, ?_⟩
  · rw [e1]
  · rw [e1]
  · rw [e1]
    dsimp only
    rw [e2]
  · rw [e1]
    dsimp only
    rw [e2]
    dsimp only
    decide

/-- Claim C9 (amended): the counter starts at 1 at creation; for every `n`
with `n + 1 < 2^32` (so the 32-bit counter never wraps), after `n` grab
calls the counter is `n + 1`; each of the first `n` drop calls leaves the
object live (counter `n + 1 - k` after `k` of them) — in particular after
exactly `n` drops the object is live with counter 1, not deleted — and the
`(n + 1)`-st drop, the one whose decrement reaches zero, deletes the
object, exactly once. -/
theorem C9_amended (n : Nat) (hn : n + 1 < U32MOD) :
    IRCState.init = IRCState.live 1 ∧
    IRCState.grab^[n] IRCState.init = IRCState.live (n + 1) ∧
    (∀ k ≤ n, IRCState.drop^[k] (IRCState.grab^[n] IRCState.init) =
      IRCState.live (n + 1 - k)) ∧
    IRCState.drop^[n] (IRCState.grab^[n] IRCState.init) = IRCState.live 1 ∧
    IRCState.drop^[n + 1] (IRCState.grab^[n] IRCState.init) =
      IRCState.deleted := by
  have h1 : IRCState.grab^[n] IRCState.init = IRCState.live (n + 1) := by
    show IRCState.grab^[n] (IRCState.live 1) = IRCState.live (n + 1)
    rw [grab_iter n 1 (by unfold U32MOD; omega)]
    congr 1
    unfold U32MOD at hn ⊢
    omega
  have hdrops : ∀ k, k ≤ n →
      IRCState.drop^[k] (IRCState.live (n + 1)) = IRCState.live (n + 1 - k) :=
    fun k hk => drop_iter_of_lt k (n + 1) hn (by omega)
  refine ⟨rfl, h1, ?_, ?_, ?_⟩
  · intro k hk
    rw [h1]
    exact hdrops k hk
  · rw [h1, hdrops n (le_refl n)]
    congr 1
    omega
  · rw [h1, Function.iterate_succ_apply', hdrops n (le_refl n),
      show n + 1 - n = 1 by omega]
    exact drop_live_one

/-- Witness for C9 (amended) at `n = 2`: two grabs then exactly two drops
leave the object live with counter 1; the third drop deletes it. -/
theorem C9_witness :
    IRCState.grab^[2] IRCState.init = IRCState.live 3 ∧
    IRCState.drop^[2] (IRCState.grab^[2] IRCState.init) = IRCState.live 1 ∧
    IRCState.drop^[3] (IRCState.grab^[2] IRCState.init) = IRCState.deleted := by
  have hc := C9_amended 2 (by unfold U32MOD; omega)
  exact ⟨hc.2.1, hc.2.2.2.1, hc.2.2.2.2⟩

/-- Counterexample to claim C9 at `n = 2^32`: after `2^32` grab calls the
32-bit counter has wrapped back to 1, so the very first of the following
drop calls decrements it to zero and deletes the object — releasing only
`n` times after `n` acquires deletes prematurely, and the remaining drops
act on a deleted object (use-after-free, `corrupt`). -/
theorem C9_counterexample :
    IRCState.grab^[4294967296] IRCState.init = IRCState.live 1 ∧
    IRCState.drop (IRCState.grab^[4294967296] IRCState.init) =
      IRCState.deleted ∧
    IRCState.drop^[4294967296] (IRCState.grab^[4294967296] IRCState.init) =
      IRCState.corrupt := by
  have h1 : IRCState.grab^[4294967296] IRCState.init = IRCState.live 1 := by
    show IRCState.grab^[4294967296] (IRCState.live 1) = IRCState.live 1
    rw [grab_iter 4294967296 1 (by unfold U32MOD; omega)]
    rfl
  refine ⟨h1, ?_, ?_⟩
  · rw [h1]
    exact drop_live_one
  · rw [h1, show (4294967296 : Nat) = 4294967295 + 1 from rfl,
      Function.iterate_add_apply, Function.iterate_one, drop_live_one]
    exact drop_iter_deleted 4294967294

/-- Claim C4 (amended): at every reachable state of a single-threaded
execution in which no allocation ever reaches `2^32` simultaneous live
holders (`ReachableB` — the reference counter is a 32-bit `unsigned int`,
and without that bound it wraps; see the counterexample): every non-empty
instance holds a non-null `refcount` pointing at a live cell whose value
equals the number of live instances holding that allocation; destroying any
holder passes the `assert((*refcount) > 0)`; when it is the last holder
(count 1) the array and the counter cell — both live until then — are
freed together and no remaining live instance references the counter, so
the pair is freed exactly once; when other holders remain the counter is
merely decremented and the arrays are untouched; and a drop that reads a
non-positive counter (the would-underflow case) fails its assertion. -/
theorem C4_amended {h : Heap} {l : List SharedBuffer} (hr : ReachableB h l) :
    (∀ b ∈ l, b.m_size ≠ 0 → ∃ c, b.refcount = some c ∧
      h.counters c = some (holders l c)) ∧
    (∀ b ∈ l, ∀ c, b.refcount = some c →
      (b.dropOp h).2 = true ∧
      (holders l c = 1 →
        h.counters c = some 1 ∧
        (∃ a, b.data = some a ∧ (h.arrays a).isSome ∧
          (b.dropOp h).1.arrays a = none) ∧
        (b.dropOp h).1.counters c = none ∧
        (∀ b2 ∈ l.erase b, b2.refcount ≠ some c)) ∧
      (2 ≤ holders l c →
        (b.dropOp h).1.counters c = some (holders l c - 1) ∧
        (b.dropOp h).1.arrays = h.arrays)) ∧
    (∀ (b : SharedBuffer) (c : Nat) (h2 : Heap), b.refcount = some c →
      h2.counters c = some 0 → (b.dropOp h2).2 = false) := by
  have hi := reachableB_inv hr
  refine ⟨?_, ?_, fun b c h2 hb hz => dropOp_underflow h2 hb hz⟩
  · intro b hb hs
    rcases hrc : b.refcount with _ | c
    · have hq := hi.refOfSize b hb hs
      rw [hrc] at hq
      exact Bool.noConfusion hq
    · exact ⟨c, rfl, hi.counterEq b hb c hrc⟩
  · intro b hb c hc
    have hv := hi.counterEq b hb c hc
    have hpos := holders_pos hb hc
    have hlt := hi.holdersLt c
    refine ⟨dropOp_ok hi hb, ?_, ?_⟩
    · intro h1c
      obtain ⟨a, hd, hlive⟩ := hi.dataLive b hb (by rw [hc]; rfl)
      have he := dropOp_last h hc (by rw [hv, h1c]) hd
      have hnofam : ∀ b2 ∈ l.erase b, b2.refcount ≠ some c := by
        intro b2 hb2 hq
        have hp2 := holders_pos hb2 hq
        have hsplit : holders l c = holders (l.erase b) c + 1 := by
          rw [holders_erase_mem hb c, if_pos hc]
        omega
      refine ⟨by rw [hv, h1c], ⟨a, hd, hlive, ?_⟩, ?_, hnofam⟩
      · rw [he]
        show (if a = a then none else h.arrays a) = none
        rw [if_pos rfl]
      · rw [he]
        show (if c = c then none else h.counters c) = none
        rw [if_pos rfl]
    · intro h2c
      have he := dropOp_decrement h hc hv h2c hlt
      rw [he]
      refine ⟨?_, rfl⟩
      show (if c = c then some (holders l c - 1) else h.counters c) =
        some (holders l c - 1)
      rw [if_pos rfl]

/-- Witness for C4 (amended) at a concrete bounded-reachable state:
`SharedBuffer(2)` then one copy — two live holders, counter cell 0 holding
2. -/
theorem C4_witness :
    ∃ c, ((SharedBuffer.copyCtor (SharedBuffer.create 2 Heap.empty).1
        (SharedBuffer.create 2 Heap.empty).2).1).refcount = some c ∧
      ((SharedBuffer.copyCtor (SharedBuffer.create 2 Heap.empty).1
        (SharedBuffer.create 2 Heap.empty).2).2.1).counters c =
        some (holders
          ((SharedBuffer.copyCtor (SharedBuffer.create 2 Heap.empty).1
            (SharedBuffer.create 2 Heap.empty).2).1 ::
           [(SharedBuffer.create 2 Heap.empty).1]) c) := by
  have hg : ∀ c, ((SharedBuffer.create 2 Heap.empty).1).refcount = some c →
      holders [(SharedBuffer.create 2 Heap.empty).1] c + 1 < U32MOD := by
    intro c hc
    rw [show ((SharedBuffer.create 2 Heap.empty).1).refcount = some 0 from rfl]
      at hc
    injection hc with q
    subst q
    decide
  have hr : ReachableB
      (SharedBuffer.copyCtor (SharedBuffer.create 2 Heap.empty).1
        (SharedBuffer.create 2 Heap.empty).2).2.1
      ((SharedBuffer.copyCtor (SharedBuffer.create 2 Heap.empty).1
        (SharedBuffer.create 2 Heap.empty).2).1 ::
       [(SharedBuffer.create 2 Heap.empty).1]) :=
    ReachableB.copy (ReachableB.create 2 ReachableB.init)
      (List.mem_singleton.2 rfl) hg
  exact (C4_amended hr).1 _ (List.mem_cons_self _ _) (by decide)

/-- Counterexample to claim C4, over the unrestricted (faithful)
reachability: the execution that creates one `SharedBuffer(1)` and
copy-constructs `2^32 - 1` further aliases of it is reachable; in its final
state the non-empty instance `sbOne` is live and holds counter cell 0,
`2^32` live instances reference that allocation, but the 32-bit counter has
wrapped around to 0 — its value does not equal the number of live
holders. -/
theorem C4_counterexample :
    Reachable (copyN 4294967295).1 (copyN 4294967295).2 ∧
    sbOne ∈ (copyN 4294967295).2 ∧
    sbOne.m_size ≠ 0 ∧
    sbOne.refcount = some 0 ∧
    holders (copyN 4294967295).2 0 = 4294967296 ∧
    (copyN 4294967295).1.counters 0 = some 0 ∧
    ¬((copyN 4294967295).1.counters 0 =
      some (holders (copyN 4294967295).2 0)) := by
  have hmem : sbOne ∈ (copyN 4294967295).2 := by
    rw [copyN_live]
    exact List.mem_replicate.2 ⟨by omega, rfl⟩
  have hhold : holders (copyN 4294967295).2 0 = 4294967296 := by
    rw [copyN_live, holders_replicate]
  have hcount : (copyN 4294967295).1.counters 0 = some 0 := by
    rw [copyN_counter]
    rfl
  refine ⟨copyN_reachable _, hmem, by decide, rfl, hhold, hcount, ?_⟩
  rw [hcount, hhold]
  decide
